import Mathlib

/-!
Verification of the command-risk classification engine and the interactive
review state machine of the `x` natural-language shell tool.

The definitions below are a shallow embedding of
`internal/safety/safety.go` (risk classifier) and `internal/ui/tui.go`
(review state machine).  Go regular expressions are embedded as an explicit
regex syntax tree together with an executable matcher; machine integers of
type `RiskLevel int` are embedded as `Int`.
-/

namespace X

/-! ### Risk levels (`safety.go`): `type RiskLevel int` with iota constants -/

abbrev RiskLevel := Int

def RiskNone : RiskLevel := 0
def RiskLow : RiskLevel := 1
def RiskMedium : RiskLevel := 2
def RiskHigh : RiskLevel := 3
def RiskCritical : RiskLevel := 4

/-- `RiskAssessment` struct of `safety.go`. -/
structure RiskAssessment where
  Level : RiskLevel
  Warnings : List String
  Suggestions : List String
deriving Repr, DecidableEq

/-! ### Regular expressions

Go's `regexp` patterns are embedded as a syntax tree.  `cls f` is a
single-character class (handles literal characters, ranges such as `[a-z]`,
complemented classes such as `[^|&]`, `\s` and `.`).  `MatchString` is
Go's unanchored boolean match. -/

inductive Regex where
  | zero
  | eps
  | cls (f : Char → Bool)
  | alt (r1 r2 : Regex)
  | cat (r1 r2 : Regex)
  | star (r : Regex)

/-- The language semantics of a regex: `Matches r s` holds when `r` matches
exactly the string `s`.  In the `star` case every iteration consumes a
nonempty chunk, which is equivalent to the usual Kleene star (empty chunks
contribute nothing to the concatenation). -/
inductive Matches : Regex → List Char → Prop
  | epsM : Matches .eps []
  | clsM {f : Char → Bool} {a : Char} (h : f a = true) : Matches (.cls f) [a]
  | altL {r1 r2 : Regex} {s : List Char} (h : Matches r1 s) : Matches (.alt r1 r2) s
  | altR {r1 r2 : Regex} {s : List Char} (h : Matches r2 s) : Matches (.alt r1 r2) s
  | catM {r1 r2 : Regex} {u v : List Char} (h1 : Matches r1 u) (h2 : Matches r2 v) :
      Matches (.cat r1 r2) (u ++ v)
  | starNil {r : Regex} : Matches (.star r) []
  | starCons {r : Regex} {a : Char} {u v : List Char}
      (h1 : Matches r (a :: u)) (h2 : Matches (.star r) v) :
      Matches (.star r) ((a :: u) ++ v)

/-- Does the regex match the empty string? -/
def nullable : Regex → Bool
  | .zero => false
  | .eps => true
  | .cls _ => false
  | .alt r1 r2 => nullable r1 || nullable r2
  | .cat r1 r2 => nullable r1 && nullable r2
  | .star _ => true

/-- Smart alternation: drops `zero` alternatives (keeps derivatives small;
semantically transparent, see `matches_altS`). -/
def altS : Regex → Regex → Regex
  | .zero, r => r
  | r, .zero => r
  | r1, r2 => .alt r1 r2

/-- Smart concatenation: absorbs `zero` and collapses `eps`
(semantically transparent, see `matches_catS`). -/
def catS : Regex → Regex → Regex
  | .zero, _ => .zero
  | _, .zero => .zero
  | .eps, r => r
  | r, .eps => r
  | r1, r2 => .cat r1 r2

/-- Brzozowski derivative: `deriv r a` matches `s` iff `r` matches `a :: s`
(proved in `matches_deriv_iff`). -/
def deriv : Regex → Char → Regex
  | .zero, _ => .zero
  | .eps, _ => .zero
  | .cls f, a => if f a then .eps else .zero
  | .alt r1 r2, a => altS (deriv r1 a) (deriv r2 a)
  | .cat r1 r2, a =>
    if nullable r1 then altS (catS (deriv r1 a) r2) (deriv r2 a)
    else catS (deriv r1 a) r2
  | .star r, a => catS (deriv r a) (.star r)

/-- Whole-string boolean match by repeated derivation; agrees with the
semantics `Matches` by `MatchString_iff`. -/
def MatchString (r : Regex) (s : List Char) : Bool :=
  nullable (s.foldl deriv r)

/-! #### Character classes used by the Go patterns -/

/-- `[a-z]` -/
def isLowerAZ (c : Char) : Bool := 97 ≤ c.toNat && c.toNat ≤ 122

/-- `[A-Z]` -/
def isUpperAZ (c : Char) : Bool := 65 ≤ c.toNat && c.toNat ≤ 90

/-- `[a-zA-Z]` -/
def isAlphaAZ (c : Char) : Bool := isLowerAZ c || isUpperAZ c

/-- `[0-9]` -/
def isDigit09 (c : Char) : Bool := 48 ≤ c.toNat && c.toNat ≤ 57

/-- `\w`, i.e. `[0-9A-Za-z_]` (used to encode the word boundary `\b`). -/
def isWordCh (c : Char) : Bool := isAlphaAZ c || isDigit09 c || c == '_'

/-- RE2 `\s`, i.e. `[\t\n\f\r ]`. -/
def isSpaceRE (c : Char) : Bool :=
  c == '\t' || c == '\n' || c == '\x0c' || c == '\r' || c == ' '

/-- A single literal character. -/
def chrR (a : Char) : Regex := .cls fun c => c == a

/-- A literal string. -/
def lit (s : String) : Regex :=
  s.data.foldr (fun a r => .cat (chrR a) r) .eps

/-- Concatenation of a list of regexes. -/
def catL (l : List Regex) : Regex := l.foldr .cat .eps

/-- `r?` -/
def opt (r : Regex) : Regex := .alt .eps r

/-- `r+` -/
def plus1 (r : Regex) : Regex := .cat r (.star r)

/-- `\s` -/
def spC : Regex := .cls isSpaceRE

/-- `\s+` -/
def spPlus : Regex := plus1 spC

/-- `\s*` -/
def spStar : Regex := .star spC

/-- `.` (any character but newline, RE2 default). -/
def dotC : Regex := .cls fun c => !(c == '\n')

/-- `.*` over the full alphabet; used to make a match unanchored, mirroring
Go's `MatchString` which finds the pattern anywhere in the string. -/
def allStarRe : Regex := .star (.cls fun _ => true)

/-- Unanchored search for `r`: some substring matches `r`. -/
def unanch (r : Regex) : Regex := .cat allStarRe (.cat r allStarRe)

/-! #### The patterns of `dangerousPatterns`, in table order.
Each definition carries the original Go pattern in its comment. -/

/-- `(-[a-zA-Z]*[rf][a-zA-Z]*\s+)` — one `rm` flag block ending in space. -/
def flagGrp : Regex :=
  catL [chrR '-', .star (.cls isAlphaAZ), .cls (fun c => c == 'r' || c == 'f'),
        .star (.cls isAlphaAZ), spPlus]

/-- `rm\s+(-[a-zA-Z]*[rf][a-zA-Z]*\s+)*(/|/\*|\s+/\s|"\s*/\s*")` -/
def rmRootRe : Regex :=
  catL [lit "rm", spPlus, .star flagGrp,
    .alt (lit "/")
      (.alt (lit "/*")
        (.alt (catL [spPlus, chrR '/', spC])
          (catL [chrR '"', spStar, chrR '/', spStar, chrR '"'])))]

/-- `rm\s+(-[a-zA-Z]*[rf][a-zA-Z]*\s+)*(~|~/\*|/home/\*|/Users/\*)` -/
def rmHomeRe : Regex :=
  catL [lit "rm", spPlus, .star flagGrp,
    .alt (lit "~")
      (.alt (lit "~/*")
        (.alt (lit "/home/*") (lit "/Users/*")))]

/-- `mkfs\s` -/
def mkfsRe : Regex := catL [lit "mkfs", spC]

/-- `(sd[a-z]|nvme|hd[a-z]|disk)` -/
def devGrp4 : Regex :=
  .alt (catL [lit "sd", .cls isLowerAZ])
    (.alt (lit "nvme")
      (.alt (catL [lit "hd", .cls isLowerAZ]) (lit "disk")))

/-- `dd\s+.*of\s*=\s*/dev/(sd[a-z]|nvme|hd[a-z]|disk)` — without the final
`\b`, which is encoded in `ddDiskSearch` below. -/
def ddDiskRe : Regex :=
  catL [lit "dd", spPlus, .star dotC, lit "of", spStar, chrR '=', spStar,
        lit "/dev/", devGrp4]

/-- Unanchored search for `dd\s+...\b`: every word of `devGrp4` ends in a
word character, so the trailing `\b` holds exactly when the match is at the
end of the string or is followed by a non-word character.  The trailing
`.*` therefore sits inside the boundary alternative. -/
def ddDiskSearch : Regex :=
  .cat allStarRe
    (.cat ddDiskRe (.alt .eps (.cat (.cls fun c => !(isWordCh c)) allStarRe)))

/-- `>\s*/dev/(sd[a-z]|nvme|hd[a-z])` -/
def devRedirRe : Regex :=
  catL [chrR '>', spStar, lit "/dev/",
    .alt (catL [lit "sd", .cls isLowerAZ])
      (.alt (lit "nvme") (catL [lit "hd", .cls isLowerAZ]))]

/-- `:(){ :|:& };:` — as parsed by RE2 this is the alternation of
`:(){ :` (with `()` an empty group and `{` a literal) and `:& };:`. -/
def forkBombRe : Regex :=
  .alt (catL [chrR ':', .eps, lit "\x7b :"]) (lit ":& \x7d;:")

/-- `rm\s+(-[a-zA-Z]*[rf][a-zA-Z]*\s+)+` -/
def rmForceRe : Regex := catL [lit "rm", spPlus, plus1 flagGrp]

/-- `chmod\s+(-R\s+)?(000|777)\s` -/
def chmodPermRe : Regex :=
  catL [lit "chmod", spPlus, opt (catL [lit "-R", spPlus]),
        .alt (lit "000") (lit "777"), spC]

/-- `chmod\s+-R\s` -/
def chmodRecRe : Regex := catL [lit "chmod", spPlus, lit "-R", spC]

/-- `chown\s+-R\s` -/
def chownRecRe : Regex := catL [lit "chown", spPlus, lit "-R", spC]

/-- `>\s*/etc/` -/
def etcRedirRe : Regex := catL [chrR '>', spStar, lit "/etc/"]

/-- `dd\s+` -/
def ddRe : Regex := catL [lit "dd", spPlus]

/-- `mv\s+.*\s+/dev/null` -/
def mvNullRe : Regex :=
  catL [lit "mv", spPlus, .star dotC, spPlus, lit "/dev/null"]

/-- `curl\s+.*\|\s*(sudo\s+)?(ba)?sh` -/
def curlShRe : Regex :=
  catL [lit "curl", spPlus, .star dotC, chrR '|', spStar,
        opt (catL [lit "sudo", spPlus]), opt (lit "ba"), lit "sh"]

/-- `wget\s+.*\|\s*(sudo\s+)?(ba)?sh` -/
def wgetShRe : Regex :=
  catL [lit "wget", spPlus, .star dotC, chrR '|', spStar,
        opt (catL [lit "sudo", spPlus]), opt (lit "ba"), lit "sh"]

/-- `eval\s+.*\$` -/
def evalDollarRe : Regex := catL [lit "eval", spPlus, .star dotC, chrR '$']

/-- `sudo\s+rm\s` -/
def sudoRmRe : Regex := catL [lit "sudo", spPlus, lit "rm", spC]

/-- `sudo\s+` -/
def sudoRe : Regex := catL [lit "sudo", spPlus]

/-- `rm\s` -/
def rmRe : Regex := catL [lit "rm", spC]

/-- `kill\s+-9` -/
def kill9Re : Regex := catL [lit "kill", spPlus, lit "-9"]

/-- `killall\s` -/
def killallRe : Regex := catL [lit "killall", spC]

/-- `pkill\s` -/
def pkillRe : Regex := catL [lit "pkill", spC]

/-- `shutdown|reboot|poweroff|halt` -/
def shutdownRe : Regex :=
  .alt (lit "shutdown") (.alt (lit "reboot") (.alt (lit "poweroff") (lit "halt")))

/-- `systemctl\s+(stop|disable|mask)\s` -/
def systemctlRe : Regex :=
  catL [lit "systemctl", spPlus,
        .alt (lit "stop") (.alt (lit "disable") (lit "mask")), spC]

/-- `iptables\s+-F` -/
def iptablesRe : Regex := catL [lit "iptables", spPlus, lit "-F"]

/-- `ufw\s+disable` -/
def ufwRe : Regex := catL [lit "ufw", spPlus, lit "disable"]

/-- `history\s+-c` -/
def historyRe : Regex := catL [lit "history", spPlus, lit "-c"]

/-- `shred\s` -/
def shredRe : Regex := catL [lit "shred", spC]

/-- `truncate\s` -/
def truncateRe : Regex := catL [lit "truncate", spC]

/-- `>\s*[^|&]` -/
def redirRe : Regex :=
  catL [chrR '>', spStar, .cls fun c => !(c == '|' || c == '&')]

/-- `DangerousPattern` struct of `safety.go`.  `Pattern` stores the full
unanchored search regex (Go keeps the compiled pattern and calls the
unanchored `MatchString` on it). -/
structure DangerousPattern where
  Pattern : Regex
  Description : String
  Level : RiskLevel
  Suggestion : String

/-- The `dangerousPatterns` table of `safety.go`, in declaration order. -/
def dangerousPatterns : List DangerousPattern := [
  { Pattern := unanch rmRootRe,
    Description := "Removes root filesystem - THIS WILL DESTROY YOUR SYSTEM",
    Level := RiskCritical,
    Suggestion := "Never run rm -rf on root. Specify the exact path you want to delete." },
  { Pattern := unanch rmHomeRe,
    Description := "Removes entire home directory",
    Level := RiskCritical,
    Suggestion := "Specify the exact subdirectory you want to delete." },
  { Pattern := unanch mkfsRe,
    Description := "Formats a filesystem - ALL DATA WILL BE LOST",
    Level := RiskCritical,
    Suggestion := "Double-check the device path. This is irreversible." },
  { Pattern := ddDiskSearch,
    Description := "Writes directly to disk - CAN DESTROY DATA",
    Level := RiskCritical,
    Suggestion := "Verify the output device is correct. Consider backing up first." },
  { Pattern := unanch devRedirRe,
    Description := "Redirects output to raw disk device",
    Level := RiskCritical,
    Suggestion := "This will overwrite the disk. Use a file path instead." },
  { Pattern := unanch forkBombRe,
    Description := "Fork bomb - WILL CRASH YOUR SYSTEM",
    Level := RiskCritical,
    Suggestion := "This is a malicious command. Do not run it." },
  { Pattern := unanch rmForceRe,
    Description := "Recursive/forced deletion",
    Level := RiskHigh,
    Suggestion := "Consider using 'rm -i' for interactive confirmation, or list files first with 'ls'." },
  { Pattern := unanch chmodPermRe,
    Description := "Dangerous permission change",
    Level := RiskHigh,
    Suggestion := "777 makes files world-writable. 000 removes all access. Use more specific permissions." },
  { Pattern := unanch chmodRecRe,
    Description := "Recursive permission change",
    Level := RiskMedium,
    Suggestion := "Verify the target directory before applying recursive permission changes." },
  { Pattern := unanch chownRecRe,
    Description := "Recursive ownership change",
    Level := RiskMedium,
    Suggestion := "Verify the target directory and new owner before applying." },
  { Pattern := unanch etcRedirRe,
    Description := "Overwrites system configuration file",
    Level := RiskHigh,
    Suggestion := "Back up the original file first. Consider using '>>' to append instead." },
  { Pattern := unanch ddRe,
    Description := "Low-level disk operation",
    Level := RiskHigh,
    Suggestion := "Double-check if= and of= parameters. Data can be lost if reversed." },
  { Pattern := unanch mvNullRe,
    Description := "Moving files to /dev/null deletes them permanently",
    Level := RiskHigh,
    Suggestion := "Use 'rm' if you want to delete. This is irreversible." },
  { Pattern := unanch curlShRe,
    Description := "Piping remote script directly to shell",
    Level := RiskHigh,
    Suggestion := "Download the script first, review it, then execute." },
  { Pattern := unanch wgetShRe,
    Description := "Piping remote script directly to shell",
    Level := RiskHigh,
    Suggestion := "Download the script first, review it, then execute." },
  { Pattern := unanch evalDollarRe,
    Description := "Executing dynamically constructed command",
    Level := RiskHigh,
    Suggestion := "Avoid eval when possible. It can execute unintended code." },
  { Pattern := unanch sudoRmRe,
    Description := "Deleting files with elevated privileges",
    Level := RiskMedium,
    Suggestion := "Verify the files to be deleted before running with sudo." },
  { Pattern := unanch sudoRe,
    Description := "Running with elevated privileges",
    Level := RiskLow,
    Suggestion := "Command runs as root. Verify this is necessary." },
  { Pattern := unanch rmRe,
    Description := "Deleting files",
    Level := RiskLow,
    Suggestion := "Consider using trash/recycle instead of permanent deletion." },
  { Pattern := unanch kill9Re,
    Description := "Force killing process",
    Level := RiskMedium,
    Suggestion := "SIGKILL doesn't allow graceful shutdown. Try 'kill' without -9 first." },
  { Pattern := unanch killallRe,
    Description := "Killing all processes by name",
    Level := RiskMedium,
    Suggestion := "This affects ALL processes with that name. Be specific." },
  { Pattern := unanch pkillRe,
    Description := "Killing processes by pattern",
    Level := RiskMedium,
    Suggestion := "Verify which processes will be affected with 'pgrep' first." },
  { Pattern := unanch shutdownRe,
    Description := "System shutdown/reboot",
    Level := RiskMedium,
    Suggestion := "This will terminate all running programs." },
  { Pattern := unanch systemctlRe,
    Description := "Stopping/disabling system service",
    Level := RiskMedium,
    Suggestion := "Verify this won't affect critical system functionality." },
  { Pattern := unanch iptablesRe,
    Description := "Flushing firewall rules",
    Level := RiskHigh,
    Suggestion := "This removes all firewall rules. Your system may become exposed." },
  { Pattern := unanch ufwRe,
    Description := "Disabling firewall",
    Level := RiskHigh,
    Suggestion := "This disables the firewall entirely. Your system may become exposed." },
  { Pattern := unanch historyRe,
    Description := "Clearing shell history",
    Level := RiskLow,
    Suggestion := "This is often used to hide malicious activity." },
  { Pattern := unanch shredRe,
    Description := "Securely erasing files (unrecoverable)",
    Level := RiskHigh,
    Suggestion := "Shredded files cannot be recovered. Verify targets carefully." },
  { Pattern := unanch truncateRe,
    Description := "Truncating files",
    Level := RiskMedium,
    Suggestion := "This can cause data loss. Verify the target file." },
  { Pattern := unanch redirRe,
    Description := "Overwriting file with redirect",
    Level := RiskLow,
    Suggestion := "This overwrites the file. Use '>>' to append instead if needed." }
]

/-! ### Normalization (`strings.TrimSpace` + `strings.ToLower`)

The Go functions are Unicode-aware; the commands matched by the rule table
are ASCII, and on ASCII text the definitions below agree with Go (the rule
patterns treat every non-ASCII character identically, so the difference on
exotic code points cannot change a match result). -/

/-- `unicode.IsSpace` restricted to the Latin-1 range:
space, `\t`, `\n`, `\v`, `\f`, `\r`, U+0085, U+00A0. -/
def isSpaceGo (c : Char) : Bool :=
  c == ' ' || c == '\t' || c == '\n' || c == '\x0b' || c == '\x0c' ||
  c == '\r' || c == '\u0085' || c == '\u00a0'

/-- `strings.TrimSpace`: drop leading and trailing white space. -/
def trimSpace (s : List Char) : List Char :=
  ((s.dropWhile isSpaceGo).reverse.dropWhile isSpaceGo).reverse

/-- `unicode.ToLower` on the ASCII range. -/
def toLowerGo (c : Char) : Char :=
  if isUpperAZ c then Char.ofNat (c.toNat + 32) else c

/-- The normalization performed at the top of `AnalyzeCommand`. -/
def normalizeCmd (command : String) : List Char :=
  (trimSpace command.data).map toLowerGo

/-- The loop body of `AnalyzeCommand`: if the rule matches the normalized
command, raise the level to the rule's level when it is higher, append the
rule's description, and append its suggestion when non-empty. -/
def analyzeStep (cmd : List Char) (assessment : RiskAssessment)
    (pattern : DangerousPattern) : RiskAssessment :=
  if MatchString pattern.Pattern cmd then
    { Level := if pattern.Level > assessment.Level then pattern.Level else assessment.Level
      Warnings := assessment.Warnings ++ [pattern.Description]
      Suggestions :=
        if pattern.Suggestion ≠ "" then assessment.Suggestions ++ [pattern.Suggestion]
        else assessment.Suggestions }
  else assessment

/-- `AnalyzeCommand` of `safety.go`: match every rule against the
normalized command, keep the highest level, collect every matching rule's
description and every matching rule's non-empty suggestion. -/
def AnalyzeCommand (command : String) : RiskAssessment :=
  dangerousPatterns.foldl (analyzeStep (normalizeCmd command))
    { Level := RiskNone, Warnings := [], Suggestions := [] }

/-- The rules of the table that match a command, in table order. -/
def matchedPatterns (command : String) : List DangerousPattern :=
  dangerousPatterns.filter (fun p => MatchString p.Pattern (normalizeCmd command))

/-- `GetRiskLevelName` of `safety.go`. -/
def GetRiskLevelName (level : RiskLevel) : String :=
  if level = RiskNone then "Safe"
  else if level = RiskLow then "Low Risk"
  else if level = RiskMedium then "Medium Risk"
  else if level = RiskHigh then "High Risk"
  else if level = RiskCritical then "CRITICAL DANGER"
  else "Unknown"

/-- `GetConfirmationWord` of `safety.go`. -/
def GetConfirmationWord (level : RiskLevel) : String :=
  if level = RiskHigh then "CONFIRM"
  else if level = RiskCritical then "I UNDERSTAND THE RISK"
  else ""

/-! ### Review state machine (`internal/ui/tui.go`)

The Bubble Tea model is embedded as a record; display-only widget state
(placeholder text, focus, width) is omitted because it never influences a
transition.  The third-party `textinput` widget is modelled by the value it
holds (`textInput`) and by `textInputUpdate`, an abstraction of its editing
behavior on key messages: it can only change its own value, which is all
the transition structure depends on. -/

/-- `Action` constants of `tui.go`. -/
inductive Action where
  | ActionNone
  | ActionExecute
  | ActionCancel
  | ActionEdit
  | ActionRefine
  | ActionExplain
deriving Repr, DecidableEq

/-- `Result` struct of `tui.go`. -/
structure Result where
  Action : Action
  Command : String
  RefinementQuery : String
deriving Repr, DecidableEq

/-- `Model` struct of `tui.go` (transition-relevant fields). -/
structure Model where
  command : String
  explanation : String
  provider : String
  modelName : String
  riskAssessment : RiskAssessment
  showExplanation : Bool
  editMode : Bool
  refineMode : Bool
  confirmMode : Bool
  textInput : String
  result : Result
  done : Bool
deriving Repr, DecidableEq

/-- `NewModel` of `tui.go`: the assessment is computed from the command at
creation; all modes are off, the result is the zero `Result`. -/
def NewModel (command provider modelName : String) : Model :=
  { command := command
    explanation := ""
    provider := provider
    modelName := modelName
    riskAssessment := AnalyzeCommand command
    showExplanation := false
    editMode := false
    refineMode := false
    confirmMode := false
    textInput := ""
    result := { Action := .ActionNone, Command := "", RefinementQuery := "" }
    done := false }

/-- `Model.SetExplanation` of `tui.go`. -/
def SetExplanation (m : Model) (explanation : String) : Model :=
  { m with explanation := explanation, showExplanation := true }

/-- A key message (`tea.KeyMsg`), identified by its `msg.String()` value
exactly as `Update` switches on it. -/
inductive Msg where
  | key (k : String)
deriving Repr, DecidableEq

/-- Model of the third-party `bubbles/textinput` widget's `Update` on a key
that the surrounding mode does not handle itself: a printable key appends
its character, backspace deletes the last character, anything else leaves
the value unchanged.  (The exact editing behavior is irrelevant to every
claim; what matters is that the widget only ever changes its own value.) -/
def textInputUpdate (k : String) (v : String) : String :=
  if k = "backspace" then v.dropRight 1
  else if k.length = 1 then v ++ k
  else v

/-- `strings.TrimSpace` on a Lean string (used on the confirmation input). -/
def trimSpaceStr (s : String) : String := ⟨trimSpace s.data⟩

/-- `Model.Update` of `tui.go` for key messages, in the order the Go code
checks the modes: edit mode, then confirm mode, then refine mode, then
normal-mode key dispatch. -/
def update (m : Model) (msg : Msg) : Model :=
  match msg with
  | .key k =>
    if m.editMode then
      if k = "enter" then
        { m with command := m.textInput
                 editMode := false
                 riskAssessment := AnalyzeCommand m.textInput }
      else if k = "esc" then
        { m with editMode := false }
      else
        { m with textInput := textInputUpdate k m.textInput }
    else if m.confirmMode then
      if k = "enter" then
        if trimSpaceStr m.textInput = GetConfirmationWord m.riskAssessment.Level then
          { m with result := { Action := .ActionExecute, Command := m.command
                               RefinementQuery := "" }
                   done := true }
        else
          { m with textInput := "" }
      else if k = "esc" then
        { m with confirmMode := false, textInput := "" }
      else
        { m with textInput := textInputUpdate k m.textInput }
    else if m.refineMode then
      if k = "enter" then
        { m with result := { Action := .ActionRefine, Command := m.command
                             RefinementQuery := m.textInput }
                 done := true }
      else if k = "esc" then
        { m with refineMode := false, textInput := "" }
      else
        { m with textInput := textInputUpdate k m.textInput }
    else
      if k = "y" ∨ k = "Y" ∨ k = "enter" then
        if RiskHigh ≤ m.riskAssessment.Level then
          { m with confirmMode := true, textInput := "" }
        else
          { m with result := { Action := .ActionExecute, Command := m.command
                               RefinementQuery := "" }
                   done := true }
      else if k = "n" ∨ k = "N" ∨ k = "q" ∨ k = "esc" then
        { m with result := { Action := .ActionCancel, Command := m.command
                             RefinementQuery := "" }
                 done := true }
      else if k = "e" ∨ k = "E" then
        { m with editMode := true, textInput := m.command }
      else if k = "r" ∨ k = "R" then
        { m with refineMode := true, textInput := "" }
      else if k = "x" ∨ k = "X" then
        { m with result := { Action := .ActionExplain, Command := m.command
                             RefinementQuery := "" }
                 done := true }
      else if k = "ctrl+c" then
        { m with result := { Action := .ActionCancel, Command := m.command
                             RefinementQuery := "" }
                 done := true }
      else
        m

/-- The reachable states of the review state machine: a freshly created
model (`RunTUI`), a freshly created model with an explanation attached
(`RunTUIWithExplanation`), and anything obtained from a reachable state by
processing a message. -/
inductive Reachable : Model → Prop
  | init (command provider modelName : String) :
      Reachable (NewModel command provider modelName)
  | initExplain (command explanation provider modelName : String) :
      Reachable (SetExplanation (NewModel command provider modelName) explanation)
  | step {m : Model} (msg : Msg) (h : Reachable m) : Reachable (update m msg)

/-- The edit flow exercised by the spec: start from the empty command
(risk `None`), enter edit mode, type `rm -rf /`, confirm the edit, then
press accept. -/
def editScenario : Model :=
  [Msg.key "e", Msg.key "r", Msg.key "m", Msg.key " ", Msg.key "-", Msg.key "r",
   Msg.key "f", Msg.key " ", Msg.key "/", Msg.key "enter", Msg.key "y"].foldl
    update (NewModel "" "openai" "gpt-4o")

/-! ## Lemmas

### Regex semantics: inversion principles, smart constructors, derivatives -/

theorem matches_zero_iff {s : List Char} : Matches .zero s ↔ False := by
  constructor
  · intro h; nomatch h
  · exact False.elim

theorem matches_eps_iff {s : List Char} : Matches .eps s ↔ s = [] := by
  constructor
  · intro h; cases h; rfl
  · intro h; subst h; exact .epsM

theorem matches_cls_iff {f : Char → Bool} {s : List Char} :
    Matches (.cls f) s ↔ ∃ a, s = [a] ∧ f a = true := by
  constructor
  · intro h; cases h with
    | clsM hf => exact ⟨_, rfl, hf⟩
  · rintro ⟨a, rfl, ha⟩; exact .clsM ha

theorem matches_alt_iff {r1 r2 : Regex} {s : List Char} :
    Matches (.alt r1 r2) s ↔ Matches r1 s ∨ Matches r2 s := by
  constructor
  · intro h; cases h with
    | altL h => exact Or.inl h
    | altR h => exact Or.inr h
  · rintro (h | h)
    · exact .altL h
    · exact .altR h

theorem matches_cat_iff {r1 r2 : Regex} {s : List Char} :
    Matches (.cat r1 r2) s ↔ ∃ u v, s = u ++ v ∧ Matches r1 u ∧ Matches r2 v := by
  constructor
  · intro h; cases h with
    | catM h1 h2 => exact ⟨_, _, rfl, h1, h2⟩
  · rintro ⟨u, v, rfl, h1, h2⟩; exact .catM h1 h2

theorem matches_altS {r1 r2 : Regex} {s : List Char} :
    Matches (altS r1 r2) s ↔ Matches r1 s ∨ Matches r2 s := by
  cases r1 <;> cases r2 <;>
    simp [altS, matches_alt_iff, matches_zero_iff]

theorem matches_cat_zero_left {r : Regex} {s : List Char} :
    Matches (.cat .zero r) s ↔ False := by
  rw [matches_cat_iff]
  simp [matches_zero_iff]

theorem matches_cat_zero_right {r : Regex} {s : List Char} :
    Matches (.cat r .zero) s ↔ False := by
  rw [matches_cat_iff]
  simp [matches_zero_iff]

theorem matches_cat_eps_left {r : Regex} {s : List Char} :
    Matches (.cat .eps r) s ↔ Matches r s := by
  rw [matches_cat_iff]
  constructor
  · rintro ⟨u, v, rfl, hu, hv⟩
    obtain rfl := matches_eps_iff.mp hu
    simpa using hv
  · intro h; exact ⟨[], s, rfl, .epsM, h⟩

theorem matches_cat_eps_right {r : Regex} {s : List Char} :
    Matches (.cat r .eps) s ↔ Matches r s := by
  rw [matches_cat_iff]
  constructor
  · rintro ⟨u, v, rfl, hu, hv⟩
    obtain rfl := matches_eps_iff.mp hv
    simpa using hu
  · intro h; exact ⟨s, [], by simp, h, .epsM⟩

theorem matches_catS {r1 r2 : Regex} {s : List Char} :
    Matches (catS r1 r2) s ↔ Matches (.cat r1 r2) s := by
  cases r1 <;> cases r2 <;>
    simp [catS, matches_zero_iff, matches_cat_zero_left, matches_cat_zero_right,
          matches_cat_eps_left, matches_cat_eps_right, matches_eps_iff]

theorem nullable_iff {r : Regex} : nullable r = true ↔ Matches r [] := by
  induction r with
  | zero => simp [nullable, matches_zero_iff]
  | eps => simp [nullable, matches_eps_iff]
  | cls f => simp [nullable, matches_cls_iff]
  | alt r1 r2 ih1 ih2 => simp [nullable, matches_alt_iff, ih1, ih2]
  | cat r1 r2 ih1 ih2 =>
    simp only [nullable, Bool.and_eq_true, ih1, ih2, matches_cat_iff]
    constructor
    · rintro ⟨h1, h2⟩; exact ⟨[], [], rfl, h1, h2⟩
    · rintro ⟨u, v, h, h1, h2⟩
      obtain ⟨rfl, rfl⟩ := List.append_eq_nil.mp h.symm
      exact ⟨h1, h2⟩
  | star r ih => simpa [nullable] using Matches.starNil

theorem matches_deriv_of {r : Regex} {s : List Char} (h : Matches r s) :
    ∀ (a : Char) (t : List Char), s = a :: t → Matches (deriv r a) t := by
  induction h with
  | epsM => intro a t ht; cases ht
  | clsM hf =>
    intro a t ht
    injection ht with h1 h2
    subst h1; subst h2
    simp [deriv, hf]
    exact .epsM
  | altL h ih =>
    intro a t ht
    exact matches_altS.mpr (Or.inl (ih a t ht))
  | altR h ih =>
    intro a t ht
    exact matches_altS.mpr (Or.inr (ih a t ht))
  | catM h1 h2 ih1 ih2 =>
    rename_i r1 r2 u v
    intro a t ht
    cases u with
    | nil =>
      simp only [List.nil_append] at ht
      have hn : nullable r1 = true := nullable_iff.mpr h1
      simp only [deriv, hn, if_true]
      exact matches_altS.mpr (Or.inr (ih2 a t ht))
    | cons b u' =>
      rw [List.cons_append] at ht
      injection ht with hba ht'
      subst hba; subst ht'
      have hL := matches_catS.mpr (Matches.catM (ih1 _ u' rfl) h2)
      simp only [deriv]
      by_cases hn : nullable r1 = true
      · simp only [hn, if_true]
        exact matches_altS.mpr (Or.inl hL)
      · simp only [hn, if_false]
        exact hL
  | starNil => intro a t ht; cases ht
  | starCons h1 h2 ih1 ih2 =>
    rename_i r b u v
    intro a t ht
    rw [List.cons_append] at ht
    injection ht with hba ht'
    subst hba; subst ht'
    exact matches_catS.mpr (.catM (ih1 _ u rfl) h2)

theorem matches_of_deriv :
    ∀ (r : Regex) (a : Char) (s : List Char), Matches (deriv r a) s → Matches r (a :: s) := by
  intro r
  induction r with
  | zero => intro a s h; simp [deriv, matches_zero_iff] at h
  | eps => intro a s h; simp [deriv, matches_zero_iff] at h
  | cls f =>
    intro a s h
    by_cases hf : f a = true
    · simp only [deriv, hf, if_true] at h
      obtain rfl := matches_eps_iff.mp h
      exact .clsM hf
    · simp [deriv, hf, matches_zero_iff] at h
  | alt r1 r2 ih1 ih2 =>
    intro a s h
    rcases matches_altS.mp (by simpa [deriv] using h) with h | h
    · exact .altL (ih1 a s h)
    · exact .altR (ih2 a s h)
  | cat r1 r2 ih1 ih2 =>
    intro a s h
    simp only [deriv] at h
    have hcat : Matches (catS (deriv r1 a) r2) s → Matches (.cat r1 r2) (a :: s) := by
      intro hc
      obtain ⟨u, v, rfl, hu, hv⟩ := matches_cat_iff.mp (matches_catS.mp hc)
      have := Matches.catM (ih1 a u hu) hv
      simpa using this
    by_cases hn : nullable r1 = true
    · simp only [hn, if_true] at h
      rcases matches_altS.mp h with h | h
      · exact hcat h
      · have h1 : Matches r1 [] := nullable_iff.mp hn
        have := Matches.catM h1 (ih2 a s h)
        simpa using this
    · simp only [hn, if_false] at h
      exact hcat h
  | star r ih =>
    intro a s h
    simp only [deriv] at h
    obtain ⟨u, v, rfl, hu, hv⟩ := matches_cat_iff.mp (matches_catS.mp h)
    have := Matches.starCons (ih a u hu) hv
    simpa using this

theorem matches_deriv_iff {r : Regex} {a : Char} {s : List Char} :
    Matches (deriv r a) s ↔ Matches r (a :: s) :=
  ⟨matches_of_deriv r a s, fun h => matches_deriv_of h a s rfl⟩

theorem MatchString_iff (r : Regex) (s : List Char) : MatchString r s = true ↔ Matches r s := by
  induction s generalizing r with
  | nil => exact nullable_iff
  | cons a t ih => exact (ih (deriv r a)).trans matches_deriv_iff

theorem matches_allStar (s : List Char) : Matches allStarRe s := by
  induction s with
  | nil => exact .starNil
  | cons a t ih =>
    have h : Matches allStarRe ((a :: []) ++ t) := .starCons (.clsM rfl) ih
    simpa using h

/-- An unanchored pattern matches any string that contains a matching
substring (the converse also holds but is not needed). -/
theorem matchString_unanch {r : Regex} {m : List Char} (hm : Matches r m)
    (u v : List Char) : MatchString (unanch r) (u ++ m ++ v) = true := by
  apply (MatchString_iff _ _).mpr
  have h : Matches (unanch r) (u ++ (m ++ v)) :=
    .catM (matches_allStar u) (.catM hm (matches_allStar v))
  simpa [List.append_assoc] using h

/-! ### The classifier's fold, characterized declaratively -/

theorem goMax_eq_max (x y : Int) : (if y > x then y else x) = max x y := by
  split <;> omega

theorem foldl_analyzeStep (cmd : List Char) (ps : List DangerousPattern)
    (acc : RiskAssessment) :
    ps.foldl (analyzeStep cmd) acc =
      { Level := ((ps.filter fun p => MatchString p.Pattern cmd).map
          fun p => p.Level).foldl max acc.Level
        Warnings := acc.Warnings ++
          (ps.filter fun p => MatchString p.Pattern cmd).map fun p => p.Description
        Suggestions := acc.Suggestions ++
          (((ps.filter fun p => MatchString p.Pattern cmd).filter
            fun p => p.Suggestion ≠ "").map fun p => p.Suggestion) } := by
  induction ps generalizing acc with
  | nil => simp
  | cons p ps ih =>
    rw [List.foldl_cons, ih]
    by_cases hm : MatchString p.Pattern cmd = true
    · by_cases hs : p.Suggestion = ""
      · simp [analyzeStep, hm, hs, goMax_eq_max, List.filter_cons]
      · simp [analyzeStep, hm, hs, goMax_eq_max, List.filter_cons]
    · simp [analyzeStep, hm, List.filter_cons]

theorem analyzeCommand_eq (c : String) :
    AnalyzeCommand c =
      { Level := ((matchedPatterns c).map fun p => p.Level).foldl max RiskNone
        Warnings := (matchedPatterns c).map fun p => p.Description
        Suggestions := ((matchedPatterns c).filter
          fun p => p.Suggestion ≠ "").map fun p => p.Suggestion } := by
  rw [AnalyzeCommand, foldl_analyzeStep]
  rfl

/-! ### Folded maximum over `Int` lists -/

theorem le_foldl_max_init (l : List Int) (a : Int) : a ≤ l.foldl max a := by
  induction l generalizing a with
  | nil => simp
  | cons x l ih => exact le_trans (le_max_left a x) (ih (max a x))

theorem le_foldl_max_of_mem {l : List Int} {x : Int} (h : x ∈ l) (a : Int) :
    x ≤ l.foldl max a := by
  induction l generalizing a with
  | nil => cases h
  | cons y l ih =>
    rcases List.mem_cons.mp h with rfl | hmem
    · exact le_trans (le_max_right a x) (le_foldl_max_init l (max a x))
    · exact ih hmem (max a y)

theorem foldl_max_le {l : List Int} {b : Int} (hl : ∀ x ∈ l, x ≤ b) {a : Int}
    (ha : a ≤ b) : l.foldl max a ≤ b := by
  induction l generalizing a with
  | nil => exact ha
  | cons x l ih =>
    exact ih (fun y hy => hl y (List.mem_cons_of_mem x hy))
      (max_le ha (hl x (List.mem_cons_self x l)))

theorem foldl_max_cases (l : List Int) (a : Int) :
    l.foldl max a = a ∨ l.foldl max a ∈ l := by
  induction l generalizing a with
  | nil => exact Or.inl rfl
  | cons x l ih =>
    rcases ih (max a x) with h | h
    · rcases max_choice a x with hm | hm
      · exact Or.inl (by rw [List.foldl_cons, h, hm])
      · exact Or.inr (by rw [List.foldl_cons, h, hm]; exact List.mem_cons_self x l)
    · exact Or.inr (List.mem_cons_of_mem x h)

/-! ### Facts about the rule table -/

theorem table_levels_ge_low : ∀ p ∈ dangerousPatterns, RiskLow ≤ p.Level := by
  decide

theorem table_levels_le_critical : ∀ p ∈ dangerousPatterns, p.Level ≤ RiskCritical := by
  decide

theorem matched_sub_table {c : String} {p : DangerousPattern}
    (h : p ∈ matchedPatterns c) : p ∈ dangerousPatterns :=
  List.mem_of_mem_filter h

theorem level_le_critical (c : String) : (AnalyzeCommand c).Level ≤ RiskCritical := by
  rw [analyzeCommand_eq]
  refine foldl_max_le ?_ (by decide)
  intro x hx
  obtain ⟨p, hp, rfl⟩ := List.mem_map.mp hx
  exact table_levels_le_critical p (matched_sub_table hp)

theorem level_ge_of_matched {c : String} {p : DangerousPattern}
    (h : p ∈ matchedPatterns c) : p.Level ≤ (AnalyzeCommand c).Level := by
  rw [analyzeCommand_eq]
  exact le_foldl_max_of_mem (List.mem_map_of_mem (fun q => q.Level) h) RiskNone

/-! ### Normalization preserves a contained `rm -rf /` -/

theorem dropWhile_decomp {p : Char → Bool} {a : Char} {m' : List Char}
    (ha : p a = false) :
    ∀ (u s v : List Char), s = u ++ (a :: m') ++ v →
      ∃ u', s.dropWhile p = u' ++ (a :: m') ++ v := by
  intro u
  induction u with
  | nil =>
    intro s v hs
    subst hs
    exact ⟨[], by simp [List.dropWhile_cons, ha]⟩
  | cons b u' ih =>
    intro s v hs
    subst hs
    by_cases hb : p b = true
    · obtain ⟨w, hw⟩ := ih (u' ++ (a :: m') ++ v) v rfl
      exact ⟨w, by simpa [List.dropWhile_cons, hb] using hw⟩
    · exact ⟨b :: u' , by simp [List.dropWhile_cons, hb]⟩

theorem trimSpace_decomp {m : List Char} {a b : Char} {m1 m2 : List Char}
    (hm1 : m = a :: m1) (hm2 : m.reverse = b :: m2)
    (ha : isSpaceGo a = false) (hb : isSpaceGo b = false) :
    ∀ (u s v : List Char), s = u ++ m ++ v →
      ∃ u' v', trimSpace s = u' ++ m ++ v' := by
  intro u s v hs
  have hs1 : s = u ++ (a :: m1) ++ v := by rw [hs, hm1]
  obtain ⟨u1, hu1⟩ := dropWhile_decomp ha u s v hs1
  rw [← hm1] at hu1
  have hrev : (s.dropWhile isSpaceGo).reverse = v.reverse ++ (b :: m2) ++ u1.reverse := by
    rw [hu1, ← hm2]
    simp [List.reverse_append, List.append_assoc]
  obtain ⟨w, hw⟩ :=
    dropWhile_decomp hb v.reverse ((s.dropWhile isSpaceGo).reverse) u1.reverse hrev
  rw [← hm2] at hw
  refine ⟨u1, w.reverse, ?_⟩
  rw [trimSpace, hw]
  simp [List.reverse_append, List.append_assoc]

/-- The characters of the pattern string `rm -rf /`. -/
def rmRfRoot : List Char := "rm -rf /".data

theorem normalizeCmd_decomp {c : String} {u v : List Char}
    (h : c.data = u ++ rmRfRoot ++ v) :
    ∃ u' v', normalizeCmd c = u' ++ rmRfRoot ++ v' := by
  have e1 : rmRfRoot = 'r' :: "m -rf /".data := by decide
  have e2 : rmRfRoot.reverse = '/' :: " fr- mr".data := by decide
  have e3 : isSpaceGo 'r' = false := by decide
  have e4 : isSpaceGo '/' = false := by decide
  obtain ⟨u1, v1, h1⟩ := trimSpace_decomp e1 e2 e3 e4 u c.data v h
  refine ⟨u1.map toLowerGo, v1.map toLowerGo, ?_⟩
  rw [normalizeCmd, h1]
  simp only [List.map_append]
  have hfix : rmRfRoot.map toLowerGo = rmRfRoot := by decide
  rw [hfix]

/-! ### The review state machine preserves the assessment invariant -/

theorem update_preserves_assessment (m : Model) (msg : Msg)
    (h : m.riskAssessment = AnalyzeCommand m.command) :
    (update m msg).riskAssessment = AnalyzeCommand (update m msg).command := by
  cases msg with
  | key k =>
    simp only [update]
    split_ifs <;> simp_all

/-! ## Claim theorems -/

/-- C1: the claim says `Analyze "chmod -R 777 ."` is `High` and a bare
accept enters `ConfirmingDangerous`.  The code disagrees: `AnalyzeCommand`
lowercases the command before matching, while both chmod rules spell the
flag with a capital `R` (`chmod\s+(-R\s+)?(000|777)\s` and
`chmod\s+-R\s`), so neither can ever match the lowercased text; no other
rule matches either, the level is `None`, and a bare accept in `Normal`
mode executes directly with no confirmation sub-mode. -/
theorem c1_chmod_recursive_is_unmatched :
    AnalyzeCommand "chmod -R 777 ." =
      { Level := RiskNone, Warnings := [], Suggestions := [] } ∧
    update (NewModel "chmod -R 777 ." "openai" "gpt-4o") (Msg.key "enter") =
      { NewModel "chmod -R 777 ." "openai" "gpt-4o" with
        result := { Action := .ActionExecute, Command := "chmod -R 777 ."
                    RefinementQuery := "" }
        done := true } := by
  constructor
  · decide
  · decide

/-- C2: in `Normal` mode an accept key (`y`/`Y`/enter) yields the terminal
`Execute` action with the command unchanged exactly when the assessment
level is below `High`; at `High` or above it instead enters
`ConfirmingDangerous` with the pending input cleared and no terminal
action.  In particular `git branch` has level `None` and accept executes
immediately. -/
theorem c2_normal_accept_execute_iff_below_high :
    (∀ (m : Model) (k : String),
      m.editMode = false → m.confirmMode = false → m.refineMode = false →
      (k = "y" ∨ k = "Y" ∨ k = "enter") →
      ((m.riskAssessment.Level < RiskHigh →
        update m (Msg.key k) =
          { m with result := { Action := .ActionExecute, Command := m.command
                               RefinementQuery := "" }
                   done := true }) ∧
       (RiskHigh ≤ m.riskAssessment.Level →
        update m (Msg.key k) = { m with confirmMode := true, textInput := "" }))) ∧
    (AnalyzeCommand "git branch").Level = RiskNone ∧
    update (NewModel "git branch" "openai" "gpt-4o") (Msg.key "enter") =
      { NewModel "git branch" "openai" "gpt-4o" with
        result := { Action := .ActionExecute, Command := "git branch"
                    RefinementQuery := "" }
        done := true } := by
  refine ⟨?_, by decide, by decide⟩
  intro m k he hc hr hk
  simp only [update, he, hc, hr, Bool.false_eq_true, if_false]
  rw [if_pos hk]
  constructor
  · intro hlt
    rw [if_neg (not_le.mpr hlt)]
  · intro hge
    rw [if_pos hge]

/-- Witness for C2 at the concrete model for `git branch` (level `None`). -/
theorem c2_witness :
    update (NewModel "git branch" "openai" "gpt-4o") (Msg.key "y") =
      { NewModel "git branch" "openai" "gpt-4o" with
        result := { Action := .ActionExecute, Command := "git branch"
                    RefinementQuery := "" }
        done := true } :=
  (c2_normal_accept_execute_iff_below_high.1 (NewModel "git branch" "openai" "gpt-4o")
    "y" rfl rfl rfl (Or.inl rfl)).1 (by decide)

/-- C3: in `ConfirmingDangerous`, pressing enter compares the pending
input trimmed of surrounding white space with
`GetConfirmationWord (assessment.Level)` by exact string equality: on a
match the terminal action is `Execute`; on a mismatch only the pending
input is cleared — the machine stays in `ConfirmingDangerous` with no
terminal action, so retries are unlimited.  The confirmation words are
`CONFIRM` for `High` and `I UNDERSTAND THE RISK` for `Critical`. -/
theorem c3_confirm_exact_phrase_gates_execute :
    (∀ m : Model, m.editMode = false → m.confirmMode = true →
      ((trimSpaceStr m.textInput = GetConfirmationWord m.riskAssessment.Level →
        update m (Msg.key "enter") =
          { m with result := { Action := .ActionExecute, Command := m.command
                               RefinementQuery := "" }
                   done := true }) ∧
       (trimSpaceStr m.textInput ≠ GetConfirmationWord m.riskAssessment.Level →
        update m (Msg.key "enter") = { m with textInput := "" }))) ∧
    GetConfirmationWord RiskHigh = "CONFIRM" ∧
    GetConfirmationWord RiskCritical = "I UNDERSTAND THE RISK" := by
  refine ⟨?_, by decide, by decide⟩
  intro m he hc
  simp only [update, he, hc, Bool.false_eq_true, if_false, if_true]
  constructor
  · intro heq
    rw [if_pos heq]
  · intro hne
    rw [if_neg hne]

/-- Witness for C3 at a `Critical` command, for both a match (trimmed) and
a mismatch. -/
theorem c3_witness :
    update { NewModel "sudo rm -rf /" "openai" "gpt-4o" with
             confirmMode := true, textInput := " I UNDERSTAND THE RISK " }
        (Msg.key "enter") =
      { NewModel "sudo rm -rf /" "openai" "gpt-4o" with
        confirmMode := true, textInput := " I UNDERSTAND THE RISK "
        result := { Action := .ActionExecute, Command := "sudo rm -rf /"
                    RefinementQuery := "" }
        done := true } ∧
    update { NewModel "sudo rm -rf /" "openai" "gpt-4o" with
             confirmMode := true, textInput := "CONFIRM" }
        (Msg.key "enter") =
      { NewModel "sudo rm -rf /" "openai" "gpt-4o" with
        confirmMode := true, textInput := "" } :=
  ⟨(c3_confirm_exact_phrase_gates_execute.1 _ rfl rfl).1 (by decide),
   (c3_confirm_exact_phrase_gates_execute.1 _ rfl rfl).2 (by decide)⟩

/-- C4: every command string containing the substring `rm -rf /` is
classified `Critical` (the root-removal rule matches the substring
wherever it occurs, and `Critical` is the table's maximum level), and for
`sudo rm -rf /` the warnings include the root-filesystem-destruction
description. -/
theorem c4_rm_rf_root_always_critical :
    (∀ (c : String) (u v : List Char), c.data = u ++ rmRfRoot ++ v →
      (AnalyzeCommand c).Level = RiskCritical) ∧
    "Removes root filesystem - THIS WILL DESTROY YOUR SYSTEM" ∈
      (AnalyzeCommand "sudo rm -rf /").Warnings := by
  constructor
  · intro c u v hc
    obtain ⟨u', v', hn⟩ := normalizeCmd_decomp hc
    have hcore : Matches rmRootRe rmRfRoot := (MatchString_iff _ _).mp (by decide)
    have hmatch : MatchString (unanch rmRootRe) (normalizeCmd c) = true := by
      rw [hn]
      exact matchString_unanch hcore u' v'
    have hmem : dangerousPatterns.get ⟨0, by decide⟩ ∈ matchedPatterns c := by
      refine List.mem_filter.mpr ⟨List.get_mem _ _ _, ?_⟩
      show MatchString (dangerousPatterns.get ⟨0, by decide⟩).Pattern (normalizeCmd c) = true
      exact hmatch
    have hge := level_ge_of_matched hmem
    have hle := level_le_critical c
    have h4 : (dangerousPatterns.get ⟨0, by decide⟩).Level = RiskCritical := rfl
    rw [h4] at hge
    exact le_antisymm hle hge
  · decide

/-- Witness for C4 at `sudo rm -rf /` (which contains `rm -rf /`). -/
theorem c4_witness : (AnalyzeCommand "sudo rm -rf /").Level = RiskCritical :=
  c4_rm_rf_root_always_critical.1 "sudo rm -rf /" "sudo ".data [] (by decide)

/-- Counterexample to C5 as stated: `history -c` matches the
clearing-shell-history rule, matches no rule of a higher level, yet its
level is `Low`, not the `Medium` the claim (following the spec's catalog)
asserts — the table entry for `history\s+-c` carries `RiskLow`. -/
theorem c5_counterexample :
    MatchString (unanch historyRe) (normalizeCmd "history -c") = true ∧
    (AnalyzeCommand "history -c").Level = RiskLow ∧
    (AnalyzeCommand "history -c").Level ≠ RiskMedium := by
  refine ⟨by decide, by decide, by decide⟩

/-- C5 (amended): every command that matches the clearing-shell-history
rule and matches no rule of a level above `Low` is classified `Low` (the
code assigns the history rule `RiskLow`, not the `Medium` of the spec's
catalog). -/
theorem c5_history_clear_level_low (c : String)
    (hmatch : MatchString (unanch historyRe) (normalizeCmd c) = true)
    (hhi : ∀ p ∈ dangerousPatterns, RiskLow < p.Level →
      MatchString p.Pattern (normalizeCmd c) = false) :
    (AnalyzeCommand c).Level = RiskLow := by
  have hmem : dangerousPatterns.get ⟨26, by decide⟩ ∈ matchedPatterns c := by
    refine List.mem_filter.mpr ⟨List.get_mem _ _ _, ?_⟩
    show MatchString (dangerousPatterns.get ⟨26, by decide⟩).Pattern (normalizeCmd c) = true
    exact hmatch
  have hge := level_ge_of_matched hmem
  have h26 : (dangerousPatterns.get ⟨26, by decide⟩).Level = RiskLow := rfl
  rw [h26] at hge
  have hle : (AnalyzeCommand c).Level ≤ RiskLow := by
    rw [analyzeCommand_eq]
    refine foldl_max_le ?_ (by decide)
    intro x hx
    obtain ⟨p, hp, rfl⟩ := List.mem_map.mp hx
    by_contra hgt
    rw [not_le] at hgt
    have ht : MatchString p.Pattern (normalizeCmd c) = true := by
      have h' := (List.mem_filter.mp hp).2
      simpa using h'
    rw [hhi p (matched_sub_table hp) hgt] at ht
    exact Bool.false_ne_true ht
  exact le_antisymm hle hge

/-- Witness for C5 (amended) at `history -c`. -/
theorem c5_witness : (AnalyzeCommand "history -c").Level = RiskLow :=
  c5_history_clear_level_low "history -c" (by decide) (by decide)

/-- C6: `AnalyzeCommand` aggregates over all matching rules: the warnings
are the descriptions of every matching rule in table order (no
deduplication), the suggestions are the non-empty suggestions of matching
rules in the same order, and the level is the maximum level among matching
rules — `None` when no rule matches, and otherwise the level of some
matching rule that bounds all of them. -/
theorem c6_analyze_aggregates_matching_rules (c : String) :
    (AnalyzeCommand c).Warnings = (matchedPatterns c).map (fun p => p.Description) ∧
    (AnalyzeCommand c).Suggestions =
      ((matchedPatterns c).filter fun p => p.Suggestion ≠ "").map (fun p => p.Suggestion) ∧
    (AnalyzeCommand c).Level =
      ((matchedPatterns c).map fun p => p.Level).foldl max RiskNone ∧
    (∀ p ∈ matchedPatterns c, p.Level ≤ (AnalyzeCommand c).Level) ∧
    (matchedPatterns c = [] → (AnalyzeCommand c).Level = RiskNone) ∧
    (matchedPatterns c ≠ [] →
      (AnalyzeCommand c).Level ∈ (matchedPatterns c).map fun p => p.Level) := by
  have heq := analyzeCommand_eq c
  refine ⟨congrArg RiskAssessment.Warnings heq, congrArg RiskAssessment.Suggestions heq,
    congrArg RiskAssessment.Level heq, fun p hp => level_ge_of_matched hp, ?_, ?_⟩
  · intro hnil
    rw [analyzeCommand_eq, hnil]
    rfl
  · intro hne
    rcases foldl_max_cases ((matchedPatterns c).map fun p => p.Level) RiskNone with h0 | hmem
    · exfalso
      obtain ⟨p, hp⟩ := List.exists_mem_of_ne_nil _ hne
      have h1 := table_levels_ge_low p (matched_sub_table hp)
      have h2 := level_ge_of_matched hp
      rw [congrArg RiskAssessment.Level heq, h0] at h2
      have : RiskLow ≤ RiskNone := le_trans h1 h2
      exact absurd this (by decide)
    · rw [congrArg RiskAssessment.Level heq]
      exact hmem

/-- Witness for C6 at `sudo rm -rf /`: the table is matched by several
rules and the level is one of the matched levels. -/
theorem c6_witness :
    (AnalyzeCommand "sudo rm -rf /").Level ∈
      ((matchedPatterns "sudo rm -rf /").map fun p => p.Level) ∧
    (AnalyzeCommand "sudo rm -rf /").Warnings =
      (matchedPatterns "sudo rm -rf /").map (fun p => p.Description) :=
  ⟨(c6_analyze_aggregates_matching_rules "sudo rm -rf /").2.2.2.2.2
      (List.length_pos.mp (by decide)),
   (c6_analyze_aggregates_matching_rules "sudo rm -rf /").1⟩

/-- C7: in every reachable state of the review state machine the stored
assessment is `AnalyzeCommand` of the current command (it is computed at
session creation and recomputed when an edit is confirmed, and no other
transition touches either field); concretely, editing the empty command
into `rm -rf /` and pressing accept lands in `ConfirmingDangerous` with a
`Critical` assessment instead of executing. -/
theorem c7_assessment_tracks_current_command :
    (∀ m : Model, Reachable m → m.riskAssessment = AnalyzeCommand m.command) ∧
    editScenario.command = "rm -rf /" ∧
    editScenario.riskAssessment.Level = RiskCritical ∧
    editScenario.confirmMode = true ∧
    editScenario.done = false ∧
    editScenario.result.Action ≠ Action.ActionExecute := by
  constructor
  · intro m h
    induction h with
    | init c p mn => rfl
    | initExplain c e p mn => rfl
    | step msg h ih => exact update_preserves_assessment _ msg ih
  · refine ⟨by decide, by decide, by decide, by decide, by decide⟩

/-- Witness for C7 at a freshly created session. -/
theorem c7_witness :
    (NewModel "ls -la" "openai" "gpt-4o").riskAssessment = AnalyzeCommand "ls -la" :=
  c7_assessment_tracks_current_command.1 (NewModel "ls -la" "openai" "gpt-4o")
    (Reachable.init "ls -la" "openai" "gpt-4o")

/-- C8: a command matched by no rule of the table is assessed `None` with
empty warnings and suggestions; `ls -la` and `echo hello` are such
commands. -/
theorem c8_no_rule_match_means_safe :
    (∀ c : String,
      (∀ p ∈ dangerousPatterns, MatchString p.Pattern (normalizeCmd c) = false) →
      AnalyzeCommand c = { Level := RiskNone, Warnings := [], Suggestions := [] }) ∧
    AnalyzeCommand "ls -la" = { Level := RiskNone, Warnings := [], Suggestions := [] } ∧
    AnalyzeCommand "echo hello" = { Level := RiskNone, Warnings := [], Suggestions := [] } := by
  refine ⟨?_, by decide, by decide⟩
  intro c hc
  have hempty : matchedPatterns c = [] := by
    rw [matchedPatterns]
    refine List.filter_eq_nil_iff.mpr ?_
    intro p hp
    simp [hc p hp]
  rw [analyzeCommand_eq, hempty]
  rfl

/-- Witness for C8 at `ls -la` (no rule matches it). -/
theorem c8_witness :
    AnalyzeCommand "ls -la" = { Level := RiskNone, Warnings := [], Suggestions := [] } :=
  c8_no_rule_match_means_safe.1 "ls -la" (by decide)

/-- C9: the level is `None` exactly when the warnings list is empty (every
table rule has level at least `Low` and contributes exactly one warning),
and an empty warnings list forces an empty suggestions list. -/
theorem c9_level_none_iff_no_warnings (c : String) :
    ((AnalyzeCommand c).Level = RiskNone ↔ (AnalyzeCommand c).Warnings = []) ∧
    ((AnalyzeCommand c).Warnings = [] → (AnalyzeCommand c).Suggestions = []) := by
  have heq := analyzeCommand_eq c
  have hW : (AnalyzeCommand c).Warnings = (matchedPatterns c).map (fun p => p.Description) :=
    congrArg RiskAssessment.Warnings heq
  have hS : (AnalyzeCommand c).Suggestions =
      ((matchedPatterns c).filter fun p => p.Suggestion ≠ "").map (fun p => p.Suggestion) :=
    congrArg RiskAssessment.Suggestions heq
  have hL : (AnalyzeCommand c).Level =
      ((matchedPatterns c).map fun p => p.Level).foldl max RiskNone :=
    congrArg RiskAssessment.Level heq
  have hkey : (AnalyzeCommand c).Warnings = [] ↔ matchedPatterns c = [] := by
    rw [hW, List.map_eq_nil_iff]
  constructor
  · constructor
    · intro h0
      rw [hkey]
      cases hm : matchedPatterns c with
      | nil => rfl
      | cons p l =>
        exfalso
        have hpmem : p ∈ matchedPatterns c := by
          rw [hm]; exact List.mem_cons_self p l
        have h1 := table_levels_ge_low p (matched_sub_table hpmem)
        have h2 := level_ge_of_matched hpmem
        rw [h0] at h2
        have : RiskLow ≤ RiskNone := le_trans h1 h2
        exact absurd this (by decide)
    · intro hw
      rw [hL, hkey.mp hw]
      rfl
  · intro hw
    rw [hS, hkey.mp hw]
    rfl

/-- Witness for C9 at `ls -la`: empty warnings force empty suggestions. -/
theorem c9_witness : (AnalyzeCommand "ls -la").Suggestions = [] :=
  (c9_level_none_iff_no_warnings "ls -la").2 (by decide)

/-- C10: `GetRiskLevelName` is total over the integer type `RiskLevel`:
the five defined levels map to their display labels and every other value
(such as `7` or `-1`) maps to `Unknown`. -/
theorem c10_riskLevelName_total :
    GetRiskLevelName RiskNone = "Safe" ∧
    GetRiskLevelName RiskLow = "Low Risk" ∧
    GetRiskLevelName RiskMedium = "Medium Risk" ∧
    GetRiskLevelName RiskHigh = "High Risk" ∧
    GetRiskLevelName RiskCritical = "CRITICAL DANGER" ∧
    (∀ level : RiskLevel, level ≠ RiskNone → level ≠ RiskLow → level ≠ RiskMedium →
      level ≠ RiskHigh → level ≠ RiskCritical → GetRiskLevelName level = "Unknown") := by
  refine ⟨by decide, by decide, by decide, by decide, by decide, ?_⟩
  intro l h0 h1 h2 h3 h4
  rw [GetRiskLevelName, if_neg h0, if_neg h1, if_neg h2, if_neg h3, if_neg h4]

/-- Witness for C10 at the out-of-range levels `7` and `-1`. -/
theorem c10_witness : GetRiskLevelName 7 = "Unknown" ∧ GetRiskLevelName (-1) = "Unknown" :=
  ⟨c10_riskLevelName_total.2.2.2.2.2 7 (by decide) (by decide) (by decide)
      (by decide) (by decide),
   c10_riskLevelName_total.2.2.2.2.2 (-1) (by decide) (by decide) (by decide)
      (by decide) (by decide)⟩

end X

